import Mathlib

/-!
Verification of the db-cloner core (src/main.rs) via a shallow embedding.

The program is a bounded-concurrency MySQL table cloner.  Its pure logic is
embedded here from the source:

* `strip_auto_increment` embeds the regex rewrite
  `Regex::new(r"AUTO_INCREMENT=\d+\s").replace_all(&sql, "")` from
  `get_table_structure` (main.rs:142-152).  The regex engine's semantics
  (leftmost, non-overlapping matches; greedy `\d+`) are modelled by a
  left-to-right scanner over the character list.  `\d` and `\s` are modelled
  by `Char.isDigit` / `Char.isWhitespace` (the statements are ASCII DDL).
  Recursion is by a fuel argument (always run with fuel = length, which is
  shown sufficient), keeping the function kernel-reducible.
* `ignore_tables`, `get_env` embed the configuration helpers
  (main.rs:174-185); the environment is passed as an explicit
  `Option String`.
* `clone_table` (main.rs:67-129) is embedded as a function from a table name
  and a source/target database model to the trace of SQL actions it issues
  plus its `Result`.  `applyTrace` gives the effect of such a trace on the
  target's copy of the table.
* The scheduling loop of `main` (main.rs:24-57) — a `JoinSet` capped at
  `MAX_CONCURRENT` — is embedded as `schedF`/`schedRun`, a step-by-step
  state machine over (remaining tables, in-flight workers, processed count).
  The nondeterministic completion order of `join_next` is an oracle
  parameter `picks`; per-table success/failure is an oracle
  `outcome : String → Bool`.  Recursion is again by (sufficient) fuel.
-/

/-- main.rs:10 `const MAX_CONCURRENT: usize = 15;` -/
def MAX_CONCURRENT : Nat := 15

/-- The literal part of the regex `AUTO_INCREMENT=\d+\s` (main.rs:143). -/
def auto_inc_lit : List Char := "AUTO_INCREMENT=".toList

/-- Match a literal character sequence at the head of a list, returning the
remainder on success. -/
def dropLit : List Char → List Char → Option (List Char)
  | [], l => some l
  | _ :: _, [] => none
  | p :: ps, c :: cs => if c = p then dropLit ps cs else none

/-- Try to match the regex `AUTO_INCREMENT=\d+\s` at the head of `l`:
the literal, then one or more digits (greedy), then one whitespace
character.  Returns the remainder after the match. -/
def matchAI (l : List Char) : Option (List Char) :=
  (dropLit auto_inc_lit l).bind fun rest =>
    if (rest.takeWhile Char.isDigit).isEmpty then none
    else
      match rest.dropWhile Char.isDigit with
      | [] => none
      | w :: rest2 => if w.isWhitespace then some rest2 else none

/-- `replace_all` of the regex with `""`: scan left to right, removing each
(leftmost, non-overlapping) match.  `fuel` bounds the recursion; fuel equal
to the length of the list is sufficient (`stripAIF_fuel_irrel`). -/
def stripAIF : Nat → List Char → List Char
  | 0, l => l
  | _ + 1, [] => []
  | fuel + 1, c :: rest =>
    match matchAI (c :: rest) with
    | some r => stripAIF fuel r
    | none => c :: stripAIF fuel rest

/-- `replace_all` of `AUTO_INCREMENT=\d+\s` with `""` on a character list. -/
def stripAI (l : List Char) : List Char := stripAIF l.length l

/-- The normalization performed by `get_table_structure` (main.rs:142-152):
`re.replace_all(&sql, "").to_string()`. -/
def strip_auto_increment (sql : String) : String := (stripAI sql.toList).asString

/-- Split a character list at commas: `s.split(",")` from main.rs:177.
Splitting the empty string yields one empty field, as in Rust. -/
def splitComma : List Char → List (List Char)
  | [] => [[]]
  | c :: rest =>
    if c = ',' then [] :: splitComma rest
    else
      match splitComma rest with
      | [] => [[c]]
      | g :: gs => (c :: g) :: gs

/-- `str::trim` (main.rs:178): drop leading and trailing whitespace. -/
def trimChars (l : List Char) : List Char :=
  ((l.dropWhile Char.isWhitespace).reverse.dropWhile Char.isWhitespace).reverse

/-- main.rs:174-181 `ignore_tables()`: read `IGNORE_TABLES` (absent ↦ `""`),
split on commas, trim each entry, discard empty entries.  The environment
variable is passed explicitly as `env`. -/
def ignore_tables (env : Option String) : List String :=
  (((splitComma (env.getD "").toList).map fun g => (trimChars g).asString).filter
    fun s => !s.isEmpty)

/-- main.rs:183-185 `get_env`: a required variable; absence is a fatal error
(`expect`), modelled as `Except.error` with the panic message. -/
def get_env (value : Option String) (key : String) : Except String String :=
  match value with
  | some v => Except.ok v
  | none => Except.error (key ++ " is not set in .env")

/-- A row, as the insert loop sees it (main.rs:98-108): the row's own ordered
column list, each column name paired with its value.  Values are modelled as
strings (the program treats them opaquely: it only moves them from a fetched
row into insert parameters). -/
abbrev RowT := List (String × String)

/-- Model of the source database as seen by `clone_table`:
`schemaOf` is the `SHOW CREATE TABLE` result (none = the statement fails),
`rowsOf` the `SELECT * FROM` result (none = the statement fails). -/
structure SourceDb where
  schemaOf : String → Option String
  rowsOf : String → Option (List RowT)

/-- Model of the target database as seen by `clone_table`: whether each
issued statement succeeds.  `insertOk` decides, per row, whether the
parameterized `INSERT` for that row is accepted. -/
structure TargetDb where
  dropOk : String → Bool
  createOk : String → Bool
  insertOk : RowT → Bool

/-- The error cases of `clone_table`, named after the spec's taxonomy (§7);
in the source all of them are `mysql_async::Error` values propagated
with `?`. -/
inductive CloneError where
  | ConnectionError
  | SchemaReadError
  | SchemaWriteError
  | RowReadError
  | RowWriteError
deriving DecidableEq

/-- One SQL action issued by `clone_table`, in issue order:
`drop` = `DROP TABLE IF EXISTS` on the target (main.rs:72-74),
`capture` = `SHOW CREATE TABLE` on the source (main.rs:76, 145),
`create` = the normalized creation statement on the target (main.rs:79),
`fetch` = `SELECT * FROM` on the source (main.rs:81-83),
`insert` = one parameterized `INSERT` on the target (main.rs:120). -/
inductive DbEvent where
  | drop (table : String)
  | capture (table : String)
  | create (sql : String)
  | fetch (table : String)
  | insert (table : String) (row : RowT)
deriving DecidableEq

/-- main.rs:142-152 `get_table_structure`: `SHOW CREATE TABLE` on the source,
normalized by `strip_auto_increment`. -/
def get_table_structure (table : String) (src : SourceDb) : Option String :=
  (src.schemaOf table).map strip_auto_increment

/-- The insert loop of `clone_table` (main.rs:98-121): one `INSERT` per row,
sequentially, stopping at (and after) the first rejected row. -/
def write_rows (table : String) (tgt : TargetDb) :
    List RowT → List DbEvent × Except CloneError Unit
  | [] => ([], Except.ok ())
  | r :: rest =>
    if tgt.insertOk r then
      let res := write_rows table tgt rest
      (DbEvent.insert table r :: res.1, res.2)
    else ([DbEvent.insert table r], Except.error CloneError.RowWriteError)

/-- main.rs:67-129 `clone_table`, as the trace of SQL actions it issues
(in order, including the failing one) together with its `Result`.
`srcConnOk`/`tgtConnOk` model the two `pool.get_conn()` calls. -/
def clone_table (table : String) (src : SourceDb) (tgt : TargetDb)
    (srcConnOk tgtConnOk : Bool) : List DbEvent × Except CloneError Unit :=
  if !srcConnOk then ([], Except.error CloneError.ConnectionError)
  else if !tgtConnOk then ([], Except.error CloneError.ConnectionError)
  else if !tgt.dropOk table then
    ([DbEvent.drop table], Except.error CloneError.SchemaWriteError)
  else
    match get_table_structure table src with
    | none =>
      ([DbEvent.drop table, DbEvent.capture table], Except.error CloneError.SchemaReadError)
    | some createSql =>
      if !tgt.createOk createSql then
        ([DbEvent.drop table, DbEvent.capture table, DbEvent.create createSql],
          Except.error CloneError.SchemaWriteError)
      else
        match src.rowsOf table with
        | none =>
          ([DbEvent.drop table, DbEvent.capture table, DbEvent.create createSql,
            DbEvent.fetch table], Except.error CloneError.RowReadError)
        | some rows =>
          let hd := [DbEvent.drop table, DbEvent.capture table,
            DbEvent.create createSql, DbEvent.fetch table]
          if rows.isEmpty then (hd, Except.ok ())
          else
            let res := write_rows table tgt rows
            (hd ++ res.1, res.2)

/-- Effect of one issued action on the target's copy of the table:
`none` = the table does not exist on the target, `some rs` = it exists and
holds rows `rs`.  A statement the target rejects has no effect. -/
def applyEvent (tgt : TargetDb) (st : Option (List RowT)) : DbEvent → Option (List RowT)
  | DbEvent.drop t => if tgt.dropOk t then none else st
  | DbEvent.create sql => if tgt.createOk sql then some [] else st
  | DbEvent.insert _ r => if tgt.insertOk r then st.map (fun rs => rs ++ [r]) else st
  | DbEvent.capture _ => st
  | DbEvent.fetch _ => st

/-- Effect of a whole trace on the target's copy of the table. -/
def applyTrace (tgt : TargetDb) (st : Option (List RowT)) (evs : List DbEvent) :
    Option (List RowT) :=
  evs.foldl (applyEvent tgt) st

/-- The ordering claimed by the spec for Schema Transfer: every target
`drop` of `t` is preceded by a source `capture` of `t`. -/
def capturesBeforeDrop (tr : List DbEvent) (t : String) : Prop :=
  ∀ j < tr.length, tr.get? j = some (DbEvent.drop t) → DbEvent.capture t ∈ tr.take j

instance (tr : List DbEvent) (t : String) : Decidable (capturesBeforeDrop tr t) := by
  unfold capturesBeforeDrop
  infer_instance

/-- The result collected over one run of the scheduling loop of `main`:
`events` = the `(processed, total)` pairs printed by `upgrade_progress`
(main.rs:163-172), in emission order;
`failures` = the tables whose worker result was an error, as logged by
`error!` (main.rs:40-42, 52-55), in completion order;
`admitted` = the tables spawned onto the `JoinSet` (main.rs:45-49), in
admission order;
`joined` = the tables whose worker was drained by `join_next`, in
completion order;
`sizes` = the number of in-flight workers observed at every step of the
loop. -/
structure SchedResult where
  events : List (Nat × Nat)
  failures : List String
  admitted : List String
  joined : List String
  sizes : List Nat
deriving DecidableEq

/-- The next completion-order oracle value (0 when the oracle runs dry). -/
def headPick (picks : List Nat) : Nat := picks.headD 0

/-- `join_next` returns whichever in-flight worker finishes first; the
choice is an oracle index `i` (taken mod the number of in-flight workers).
Returns the finished table and the remaining in-flight list. -/
def popAt (l : List String) (i : Nat) : String × List String :=
  match l with
  | [] => ("", [])
  | x :: xs =>
    ((x :: xs).getD (i % (x :: xs).length) x, (x :: xs).eraseIdx (i % (x :: xs).length))

/-- main.rs:26-29: `total_tables`, the number of source tables not in the
ignore list. -/
def countNonIgnored (tables ignore : List String) : Nat :=
  (tables.filter fun t => decide (t ∉ ignore)).length

/-- The scheduling loop of `main` (main.rs:31-57) as a fuel-indexed state
machine.  State: `remaining` tables still to be considered by the `for`
loop, `inflight` tables currently in the `JoinSet`, `processed` as in
`upgrade_progress`.  Branches, in the order the source checks them:
skip an ignored table (main.rs:32-35); when at `MAX_CONCURRENT`, drain one
completion chosen by the `picks` oracle, log its error if `outcome` says it
failed, and emit progress (main.rs:37-44); otherwise spawn the table
(main.rs:45-49); once the `for` loop is done, drain the remaining workers
the same way (main.rs:52-57).  Fuel `2 * remaining.length +
inflight.length + 1` is sufficient and is what `schedRun` supplies. -/
def schedF (outcome : String → Bool) (ignore : List String) (total : Nat) :
    Nat → List String → List String → Nat → List Nat → SchedResult
  | 0, _, _, _, _ => ⟨[], [], [], [], []⟩
  | _ + 1, [], [], _, _ => ⟨[], [], [], [], [0]⟩
  | fuel + 1, [], t :: infl, processed, picks =>
    let fin := popAt (t :: infl) (headPick picks)
    let r := schedF outcome ignore total fuel [] fin.2 (processed + 1) picks.tail
    { r with
      events := (processed + 1, total) :: r.events
      failures := if outcome fin.1 then r.failures else fin.1 :: r.failures
      joined := fin.1 :: r.joined
      sizes := (t :: infl).length :: r.sizes }
  | fuel + 1, t :: rest, inflight, processed, picks =>
    if t ∈ ignore then
      let r := schedF outcome ignore total fuel rest inflight processed picks
      { r with sizes := inflight.length :: r.sizes }
    else if MAX_CONCURRENT ≤ inflight.length then
      let fin := popAt inflight (headPick picks)
      let r := schedF outcome ignore total fuel (t :: rest) fin.2 (processed + 1) picks.tail
      { r with
        events := (processed + 1, total) :: r.events
        failures := if outcome fin.1 then r.failures else fin.1 :: r.failures
        joined := fin.1 :: r.joined
        sizes := inflight.length :: r.sizes }
    else
      let r := schedF outcome ignore total fuel rest (inflight ++ [t]) processed picks
      { r with
        admitted := t :: r.admitted
        sizes := inflight.length :: r.sizes }

/-- One full run of `main`'s scheduling loop: `total` fixed up front from
the non-ignored count, starting with an empty `JoinSet` and `processed = 0`. -/
def schedRun (tables ignore : List String) (outcome : String → Bool)
    (picks : List Nat) : SchedResult :=
  schedF outcome ignore (countNonIgnored tables ignore) (2 * tables.length + 1)
    tables [] 0 picks

/-- The per-table outcome the scheduler actually joins: whether
`clone_table` for that table returned `Ok` (main.rs:40, 53). -/
def worker_outcome (src : SourceDb) (tgt : TargetDb) (t : String) : Bool :=
  match (clone_table t src tgt true true).2 with
  | Except.ok _ => true
  | Except.error _ => false

deriving instance DecidableEq for Except

/-- A concrete source for witnesses: every table has a one-column schema and
no rows. -/
def srcOkW : SourceDb :=
  ⟨fun _ => some "CREATE TABLE `t` (`id` int)", fun _ => some []⟩

/-- A concrete target for witnesses: every statement succeeds. -/
def tgtOkW : TargetDb := ⟨fun _ => true, fun _ => true, fun _ => true⟩

/-- Concrete rows for the row-transfer witnesses. -/
def rowA : RowT := [("id", "1")]

def rowB : RowT := [("id", "2")]

def rowBad : RowT := [("id", "oops")]

/-- A concrete source whose table `t` holds three rows. -/
def srcRowsW : SourceDb :=
  ⟨fun _ => some "CREATE TABLE `t` (`id` int)", fun _ => some [rowA, rowB, rowBad]⟩

/-- A concrete target that rejects the insert of `rowBad` and accepts
everything else. -/
def tgtRejectW : TargetDb :=
  ⟨fun _ => true, fun _ => true, fun r => !(r == rowBad)⟩

theorem dropLit_self_append (p l : List Char) : dropLit p (p ++ l) = some l := by
  induction p with
  | nil => rfl
  | cons c ps ih => simp [dropLit, ih]

theorem dropLit_some_length {p l r : List Char} (h : dropLit p l = some r) :
    r.length + p.length = l.length := by
  induction p generalizing l with
  | nil =>
    simp only [dropLit, Option.some.injEq] at h
    simp [h]
  | cons c ps ih =>
    cases l with
    | nil => exact absurd h (by simp [dropLit])
    | cons d ds =>
      simp only [dropLit] at h
      split at h
      · have := ih h
        simp only [List.length_cons]
        omega
      · exact absurd h (by simp)

theorem dropWhile_len_le (p : Char → Bool) (l : List Char) :
    (l.dropWhile p).length ≤ l.length := by
  induction l with
  | nil => simp
  | cons a l ih =>
    rw [List.dropWhile_cons]
    split
    · simp only [List.length_cons]; omega
    · simp

theorem ws_not_digit {c : Char} (h : c.isWhitespace = true) : c.isDigit = false := by
  simp [Char.isWhitespace] at h
  rcases h with ((h | h) | h) | h <;> subst h <;> decide

theorem matchAI_some_length {l r : List Char} (h : matchAI l = some r) :
    r.length < l.length := by
  unfold matchAI at h
  cases hdl : dropLit auto_inc_lit l with
  | none => rw [hdl, Option.none_bind] at h; exact absurd h (by simp)
  | some rest =>
    rw [hdl, Option.some_bind] at h
    have hlen := dropLit_some_length hdl
    have hlit : auto_inc_lit.length = 15 := by decide
    by_cases hte : (rest.takeWhile Char.isDigit).isEmpty = true
    · rw [if_pos hte] at h; exact absurd h (by simp)
    · rw [if_neg hte] at h
      cases hdw : rest.dropWhile Char.isDigit with
      | nil => rw [hdw] at h; exact absurd h (by simp)
      | cons w rest2 =>
        rw [hdw] at h
        by_cases hws : w.isWhitespace = true
        · simp only [hws, if_true] at h
          have hr : rest2 = r := by simpa using h
          subst hr
          have hle := dropWhile_len_le Char.isDigit rest
          rw [hdw] at hle
          simp only [List.length_cons] at hle
          omega
        · simp [hws] at h

theorem stripAIF_nil (fuel : Nat) : stripAIF fuel [] = [] := by
  cases fuel <;> rfl

theorem stripAIF_fuel_irrel :
    ∀ fuel fuel' (l : List Char), l.length ≤ fuel → l.length ≤ fuel' →
      stripAIF fuel l = stripAIF fuel' l := by
  intro fuel
  induction fuel with
  | zero =>
    intro fuel' l h _
    have : l = [] := List.eq_nil_of_length_eq_zero (Nat.le_zero.mp h)
    subst this
    rw [stripAIF_nil, stripAIF_nil]
  | succ fuel ih =>
    intro fuel' l h h'
    cases l with
    | nil => rw [stripAIF_nil, stripAIF_nil]
    | cons c rest =>
      cases fuel' with
      | zero => simp [List.length_cons] at h'
      | succ fuel2 =>
        simp only [stripAIF]
        cases hm : matchAI (c :: rest) with
        | some r =>
          have hr := matchAI_some_length hm
          simp only [List.length_cons] at h h' hr
          exact ih fuel2 r (by omega) (by omega)
        | none =>
          simp only [List.length_cons] at h h'
          rw [ih fuel2 rest (by omega) (by omega)]

theorem stripAI_cons_match {c : Char} {rest r : List Char}
    (h : matchAI (c :: rest) = some r) : stripAI (c :: rest) = stripAI r := by
  have hr := matchAI_some_length h
  simp only [List.length_cons] at hr
  unfold stripAI
  rw [List.length_cons]
  simp only [stripAIF, h]
  exact stripAIF_fuel_irrel rest.length r.length r (by omega) le_rfl

theorem stripAI_cons_nomatch {c : Char} {rest : List Char}
    (h : matchAI (c :: rest) = none) : stripAI (c :: rest) = c :: stripAI rest := by
  unfold stripAI
  rw [List.length_cons]
  simp only [stripAIF, h]

theorem takeWhile_all_append {p : Char → Bool} {d : List Char} (w : Char) (q : List Char)
    (hd : ∀ c ∈ d, p c = true) (hw : p w = false) :
    (d ++ w :: q).takeWhile p = d := by
  induction d with
  | nil => simp [List.takeWhile_cons, hw]
  | cons c cs ih =>
    simp only [List.cons_append, List.takeWhile_cons, hd c (List.mem_cons_self c cs),
      if_pos]
    rw [ih fun x hx => hd x (List.mem_cons_of_mem c hx)]

theorem dropWhile_all_append {p : Char → Bool} {d : List Char} (w : Char) (q : List Char)
    (hd : ∀ c ∈ d, p c = true) (hw : p w = false) :
    (d ++ w :: q).dropWhile p = w :: q := by
  induction d with
  | nil => simp [List.dropWhile_cons, hw]
  | cons c cs ih =>
    simp only [List.cons_append, List.dropWhile_cons, hd c (List.mem_cons_self c cs),
      if_pos]
    exact ih fun x hx => hd x (List.mem_cons_of_mem c hx)

theorem matchAI_self (d : List Char) (w : Char) (q : List Char)
    (hd : d ≠ []) (hdd : ∀ c ∈ d, c.isDigit = true) (hw : w.isWhitespace = true) :
    matchAI (auto_inc_lit ++ (d ++ w :: q)) = some q := by
  unfold matchAI
  rw [dropLit_self_append, Option.some_bind]
  rw [takeWhile_all_append w q hdd (ws_not_digit hw),
    dropWhile_all_append w q hdd (ws_not_digit hw)]
  simp [List.isEmpty_iff, hd, hw]

theorem matchAI_cons_ne {c : Char} (l : List Char) (hc : c ≠ 'A') :
    matchAI (c :: l) = none := by
  have hlit : auto_inc_lit = 'A' :: "UTO_INCREMENT=".toList := rfl
  unfold matchAI
  rw [hlit]
  simp [dropLit, hc]

theorem stripAI_of_no_upper_a {l : List Char} (h : ∀ c ∈ l, c ≠ 'A') :
    stripAI l = l := by
  induction l with
  | nil => rfl
  | cons c rest ih =>
    rw [stripAI_cons_nomatch (matchAI_cons_ne rest (h c (List.mem_cons_self c rest)))]
    rw [ih fun x hx => h x (List.mem_cons_of_mem c hx)]

theorem stripAI_append_removal :
    ∀ (p : List Char), (∀ c ∈ p, c ≠ 'A') →
      ∀ (d q : List Char) (w : Char), (∀ c ∈ q, c ≠ 'A') → d ≠ [] →
        (∀ c ∈ d, c.isDigit = true) → w.isWhitespace = true →
        stripAI (p ++ auto_inc_lit ++ d ++ w :: q) = p ++ q := by
  intro p
  induction p with
  | nil =>
    intro _ d q w hq hd hdd hw
    have hm : matchAI (auto_inc_lit ++ (d ++ w :: q)) = some q :=
      matchAI_self d w q hd hdd hw
    have hform : auto_inc_lit ++ (d ++ w :: q) =
        'A' :: ("UTO_INCREMENT=".toList ++ (d ++ w :: q)) := rfl
    rw [hform] at hm
    have : stripAI ([] ++ auto_inc_lit ++ d ++ w :: q) =
        stripAI ('A' :: ("UTO_INCREMENT=".toList ++ (d ++ w :: q))) := by
      simp [List.append_assoc]
      rfl
    rw [this, stripAI_cons_match hm, stripAI_of_no_upper_a hq]
    simp
  | cons a p2 ih =>
    intro hp d q w hq hd hdd hw
    have ha : a ≠ 'A' := hp a (List.mem_cons_self a p2)
    have hstep : stripAI ((a :: p2) ++ auto_inc_lit ++ d ++ w :: q) =
        a :: stripAI (p2 ++ auto_inc_lit ++ d ++ w :: q) := by
      simp only [List.cons_append]
      exact stripAI_cons_nomatch (matchAI_cons_ne _ ha)
    rw [hstep, ih (fun x hx => hp x (List.mem_cons_of_mem a hx)) d q w hq hd hdd hw]
    rfl

/-- C4: Schema normalization removes every occurrence of the token sequence
"AUTO_INCREMENT=" followed by digits and one trailing whitespace character
from the captured creation statement, leaving the rest byte-identical; in
particular, for a creation statement containing `AUTO_INCREMENT=482 `
mid-statement, the normalized statement has exactly that token sequence
removed and is otherwise unchanged.  (First conjunct: any occurrence of the
pattern is removed and prefix and suffix are kept byte-identical, for
match-free prefix and suffix; second conjunct: the spec's `AUTO_INCREMENT=482 `
example on a realistic `SHOW CREATE TABLE` statement, where the
`AUTO_INCREMENT` column attribute — no `=` — is untouched.) -/
theorem C4_schema_normalization (p d q : List Char) (w : Char)
    (hp : ∀ c ∈ p, c ≠ 'A') (hq : ∀ c ∈ q, c ≠ 'A') (hd : d ≠ [])
    (hdd : ∀ c ∈ d, c.isDigit = true) (hw : w.isWhitespace = true) :
    stripAI (p ++ auto_inc_lit ++ d ++ w :: q) = p ++ q ∧
    strip_auto_increment
        "CREATE TABLE `t` (`id` int NOT NULL AUTO_INCREMENT, PRIMARY KEY (`id`)) ENGINE=InnoDB AUTO_INCREMENT=482 DEFAULT CHARSET=utf8mb4" =
      "CREATE TABLE `t` (`id` int NOT NULL AUTO_INCREMENT, PRIMARY KEY (`id`)) ENGINE=InnoDB DEFAULT CHARSET=utf8mb4" :=
  ⟨stripAI_append_removal p hp d q w hq hd hdd hw, by
    set_option maxRecDepth 4000 in decide⟩

/-- Witness for C4: the general removal statement applied at a concrete
creation-statement fragment. -/
theorem C4_schema_normalization_witness :
    stripAI ("engine=innodb ".toList ++ auto_inc_lit ++ ['4', '8', '2'] ++
        ' ' :: "default charset=utf8".toList) =
      "engine=innodb ".toList ++ "default charset=utf8".toList :=
  (C4_schema_normalization "engine=innodb ".toList ['4', '8', '2']
    "default charset=utf8".toList ' ' (by decide) (by decide) (by decide)
    (by decide) (by decide)).1

theorem write_rows_split (t : String) (tgt : TargetDb) (pre post : List RowT) (bad : RowT)
    (hpre : ∀ r ∈ pre, tgt.insertOk r = true) (hbad : tgt.insertOk bad = false) :
    write_rows t tgt (pre ++ bad :: post) =
      ((pre ++ [bad]).map (DbEvent.insert t), Except.error CloneError.RowWriteError) := by
  induction pre with
  | nil => simp [write_rows, hbad]
  | cons r rs ih =>
    simp only [List.cons_append, write_rows, hpre r (List.mem_cons_self r rs), if_true,
      List.map_cons, List.append_eq]
    rw [ih fun x hx => hpre x (List.mem_cons_of_mem r hx)]

theorem applyTrace_append (tgt : TargetDb) (st : Option (List RowT)) (l1 l2 : List DbEvent) :
    applyTrace tgt st (l1 ++ l2) = applyTrace tgt (applyTrace tgt st l1) l2 := by
  unfold applyTrace
  rw [List.foldl_append]

theorem applyTrace_inserts (tgt : TargetDb) (t : String) (l : List RowT) (rs : List RowT)
    (h : ∀ r ∈ l, tgt.insertOk r = true) :
    applyTrace tgt (some rs) (l.map (DbEvent.insert t)) = some (rs ++ l) := by
  induction l generalizing rs with
  | nil => simp [applyTrace]
  | cons r rest ih =>
    simp only [List.map_cons, applyTrace, List.foldl_cons]
    have hr : applyEvent tgt (some rs) (DbEvent.insert t r) = some (rs ++ [r]) := by
      simp [applyEvent, h r (List.mem_cons_self r rest)]
    rw [hr]
    have := ih (rs ++ [r]) fun x hx => h x (List.mem_cons_of_mem r hx)
    simpa [List.append_assoc] using this

theorem clone_table_drop_head (t : String) (src : SourceDb) (tgt : TargetDb)
    (hdrop : tgt.dropOk t = true) :
    ∃ rest, (clone_table t src tgt true true).1 = DbEvent.drop t :: rest := by
  unfold clone_table
  simp only [Bool.not_true, Bool.false_eq_true, if_false, hdrop]
  cases hgs : get_table_structure t src with
  | none => exact ⟨_, rfl⟩
  | some createSql =>
    by_cases hc : tgt.createOk createSql
    · simp only [hc, Bool.not_true, Bool.false_eq_true, if_false]
      cases hr : src.rowsOf t with
      | none => exact ⟨_, rfl⟩
      | some rows =>
        by_cases he : rows.isEmpty
        · simp only [he, if_true]
          exact ⟨_, rfl⟩
        · simp only [he, Bool.false_eq_true, if_false]
          exact ⟨DbEvent.capture t :: DbEvent.create createSql :: DbEvent.fetch t ::
            (write_rows t tgt rows).1, by simp⟩
    · simp only [hc, Bool.not_false, if_true]
      exact ⟨_, rfl⟩

set_option maxRecDepth 4000 in
/-- C1 (counterexample): on a concrete table whose clone fully succeeds, the
trace of `clone_table` has the target `DROP TABLE IF EXISTS` at position 0
with no source schema capture before it — refuting "the source schema is
captured before the target table is dropped". -/
theorem C1_capture_before_drop_counterexample :
    (clone_table "t" srcOkW tgtOkW true true).2 = Except.ok () ∧
    ¬ capturesBeforeDrop (clone_table "t" srcOkW tgtOkW true true).1 "t" := by
  decide

/-- C1 (amended): for every cloned table, the Table-Clone Worker first
issues "drop table if exists" on the target, then captures the source's
creation statement, and then issues the (normalized) creation statement —
the target drop precedes the source schema capture. -/
theorem C1_drop_then_capture_then_create (t sql : String) (src : SourceDb)
    (tgt : TargetDb) (hdrop : tgt.dropOk t = true)
    (hschema : src.schemaOf t = some sql) :
    (clone_table t src tgt true true).1.take 3 =
      [DbEvent.drop t, DbEvent.capture t,
        DbEvent.create (strip_auto_increment sql)] := by
  have hgs : get_table_structure t src = some (strip_auto_increment sql) := by
    simp [get_table_structure, hschema]
  unfold clone_table
  simp only [Bool.not_true, Bool.false_eq_true, if_false, hdrop, hgs]
  by_cases hc : tgt.createOk (strip_auto_increment sql)
  · simp only [hc, Bool.not_true, Bool.false_eq_true, if_false]
    cases hr : src.rowsOf t with
    | none => rfl
    | some rows =>
      by_cases he : rows.isEmpty
      · simp only [he, if_true]; rfl
      · simp only [he, Bool.false_eq_true, if_false]; rfl
  · simp only [hc, Bool.not_false, if_true]; rfl

/-- Witness for the amended C1, at a concrete world. -/
theorem C1_drop_then_capture_then_create_witness :
    (clone_table "t" srcOkW tgtOkW true true).1.take 3 =
      [DbEvent.drop "t", DbEvent.capture "t",
        DbEvent.create (strip_auto_increment "CREATE TABLE `t` (`id` int)")] :=
  C1_drop_then_capture_then_create "t" "CREATE TABLE `t` (`id` int)" srcOkW tgtOkW
    rfl rfl

/-- C2: for every table (once its two connections are acquired),
`clone_table` issues `DROP TABLE IF EXISTS` on the target as its very first
statement, before reading the source schema (any `capture` action sits at a
strictly positive index); consequently the target's pre-existing copy of
the table is deleted up front and the final target state is independent of
it — on every path, error paths included, nothing restores the old copy. -/
theorem C2_drop_is_first_statement (t : String) (src : SourceDb) (tgt : TargetDb)
    (hdrop : tgt.dropOk t = true) :
    (clone_table t src tgt true true).1.head? = some (DbEvent.drop t) ∧
    (∀ i, (clone_table t src tgt true true).1.get? i = some (DbEvent.capture t) →
      0 < i) ∧
    ∀ st, applyTrace tgt st (clone_table t src tgt true true).1 =
      applyTrace tgt none (clone_table t src tgt true true).1 := by
  obtain ⟨rest, hrest⟩ := clone_table_drop_head t src tgt hdrop
  refine ⟨by rw [hrest]; rfl, ?_, ?_⟩
  · intro i hi
    cases i with
    | zero => rw [hrest] at hi; simp at hi
    | succ n => exact Nat.succ_pos n
  · intro st
    rw [hrest]
    simp only [applyTrace, List.foldl_cons]
    have h1 : applyEvent tgt st (DbEvent.drop t) = none := by simp [applyEvent, hdrop]
    have h2 : applyEvent tgt none (DbEvent.drop t) = none := by simp [applyEvent, hdrop]
    rw [h1, h2]

/-- Witness for C2 at a concrete world. -/
theorem C2_drop_is_first_statement_witness :
    tgtOkW.dropOk "t" = true ∧
    (clone_table "t" srcOkW tgtOkW true true).1.head? = some (DbEvent.drop "t") :=
  ⟨rfl, (C2_drop_is_first_statement "t" srcOkW tgtOkW rfl).1⟩

/-- C9: if the source returns zero rows for a table, the schema is still
transferred (the drop and the create statements are both issued, not
skipped), row insertion is a no-op (the trace ends at the fetch), the
target ends with the table created and empty, and the worker reports
success. -/
theorem C9_empty_table_success (t sql : String) (src : SourceDb) (tgt : TargetDb)
    (hdrop : tgt.dropOk t = true) (hschema : src.schemaOf t = some sql)
    (hcreate : tgt.createOk (strip_auto_increment sql) = true)
    (hrows : src.rowsOf t = some []) :
    clone_table t src tgt true true =
      ([DbEvent.drop t, DbEvent.capture t, DbEvent.create (strip_auto_increment sql),
        DbEvent.fetch t], Except.ok ()) ∧
    (∀ old : List RowT, applyTrace tgt (some old) (clone_table t src tgt true true).1 =
      some []) ∧
    DbEvent.create (strip_auto_increment sql) ∈ (clone_table t src tgt true true).1 := by
  have hgs : get_table_structure t src = some (strip_auto_increment sql) := by
    simp [get_table_structure, hschema]
  have hmain : clone_table t src tgt true true =
      ([DbEvent.drop t, DbEvent.capture t, DbEvent.create (strip_auto_increment sql),
        DbEvent.fetch t], Except.ok ()) := by
    unfold clone_table
    simp only [Bool.not_true, Bool.false_eq_true, if_false, hdrop, hgs, hcreate,
      hrows, List.isEmpty_nil, if_true]
  refine ⟨hmain, ?_, ?_⟩
  · intro old
    rw [hmain]
    simp [applyTrace, applyEvent, hdrop, hcreate]
  · rw [hmain]
    simp

/-- Witness for C9 at a concrete world (the table of `srcOkW` has no rows). -/
theorem C9_empty_table_success_witness :
    clone_table "t" srcOkW tgtOkW true true =
      ([DbEvent.drop "t", DbEvent.capture "t",
        DbEvent.create (strip_auto_increment "CREATE TABLE `t` (`id` int)"),
        DbEvent.fetch "t"], Except.ok ()) :=
  (C9_empty_table_success "t" "CREATE TABLE `t` (`id` int)" srcOkW tgtOkW
    rfl rfl rfl rfl).1

/-- C7: if a table's row transfer is rejected at some row, the transfer for
that table stops at exactly that row — the trace contains the inserts for
the accepted prefix and the one rejected row, and nothing after — the rows
already written remain on the target (the final target state holds exactly
the accepted prefix; there is no rollback action in the trace), and the
worker yields a failure outcome (`RowWriteError`). -/
theorem C7_row_failure_stops_table (t sql : String) (src : SourceDb) (tgt : TargetDb)
    (pre post : List RowT) (bad : RowT)
    (hdrop : tgt.dropOk t = true) (hschema : src.schemaOf t = some sql)
    (hcreate : tgt.createOk (strip_auto_increment sql) = true)
    (hrows : src.rowsOf t = some (pre ++ bad :: post))
    (hpre : ∀ r ∈ pre, tgt.insertOk r = true)
    (hbad : tgt.insertOk bad = false) :
    clone_table t src tgt true true =
      ([DbEvent.drop t, DbEvent.capture t, DbEvent.create (strip_auto_increment sql),
        DbEvent.fetch t] ++ (pre ++ [bad]).map (DbEvent.insert t),
        Except.error CloneError.RowWriteError) ∧
    ∀ old : List RowT, applyTrace tgt (some old) (clone_table t src tgt true true).1 =
      some pre := by
  have hgs : get_table_structure t src = some (strip_auto_increment sql) := by
    simp [get_table_structure, hschema]
  have hne : (pre ++ bad :: post).isEmpty = false := by simp
  have hwr := write_rows_split t tgt pre post bad hpre hbad
  have hmain : clone_table t src tgt true true =
      ([DbEvent.drop t, DbEvent.capture t, DbEvent.create (strip_auto_increment sql),
        DbEvent.fetch t] ++ (pre ++ [bad]).map (DbEvent.insert t),
        Except.error CloneError.RowWriteError) := by
    unfold clone_table
    simp only [Bool.not_true, Bool.false_eq_true, if_false, hdrop, hgs, hcreate,
      hrows, hne, hwr]
  refine ⟨hmain, fun old => ?_⟩
  rw [hmain]
  simp only [List.cons_append, List.nil_append]
  have hstep : applyTrace tgt (some old)
      (DbEvent.drop t :: DbEvent.capture t :: DbEvent.create (strip_auto_increment sql) ::
        DbEvent.fetch t :: (pre ++ [bad]).map (DbEvent.insert t)) =
      applyTrace tgt (some []) ((pre ++ [bad]).map (DbEvent.insert t)) := by
    simp only [applyTrace, List.foldl_cons]
    simp [applyEvent, hdrop, hcreate]
  rw [hstep, List.map_append, applyTrace_append, applyTrace_inserts tgt t pre [] hpre]
  simp [applyTrace, applyEvent, hbad]

/-- Witness for C7 at a concrete world: rows `[rowA, rowB, rowBad]` with the
third insert rejected. -/
theorem C7_row_failure_stops_table_witness :
    clone_table "t" srcRowsW tgtRejectW true true =
      ([DbEvent.drop "t", DbEvent.capture "t",
        DbEvent.create (strip_auto_increment "CREATE TABLE `t` (`id` int)"),
        DbEvent.fetch "t"] ++ ([rowA, rowB] ++ [rowBad]).map (DbEvent.insert "t"),
        Except.error CloneError.RowWriteError) :=
  (C7_row_failure_stops_table "t" "CREATE TABLE `t` (`id` int)" srcRowsW tgtRejectW
    [rowA, rowB] [] rowBad rfl rfl rfl rfl (by decide) (by decide)).1

theorem popAt_cons_length (x : String) (xs : List String) (i : Nat) :
    (popAt (x :: xs) i).2.length = xs.length := by
  unfold popAt
  have hlt : i % (x :: xs).length < (x :: xs).length :=
    Nat.mod_lt _ (by simp)
  have h2 := List.length_eraseIdx_add_one hlt
  simp only [List.length_cons] at h2 ⊢
  omega

theorem getD_cons_eraseIdx_perm :
    ∀ (l : List String) (j : Nat) (d : String), j < l.length →
      List.Perm (l.getD j d :: l.eraseIdx j) l := by
  intro l
  induction l with
  | nil => intro j d h; simp at h
  | cons a as ih =>
    intro j d h
    cases j with
    | zero => simp
    | succ n =>
      simp only [List.getD_cons_succ, List.eraseIdx_cons_succ]
      have hn : n < as.length := by simp at h; omega
      exact (List.Perm.swap a (as.getD n d) (as.eraseIdx n)).trans ((ih n d hn).cons a)

theorem popAt_cons_perm (x : String) (xs : List String) (i : Nat) :
    List.Perm ((popAt (x :: xs) i).1 :: (popAt (x :: xs) i).2) (x :: xs) := by
  unfold popAt
  exact getD_cons_eraseIdx_perm (x :: xs) _ x (Nat.mod_lt _ (by simp))

theorem range_map_pair_succ (m a tot : Nat) :
    (List.range (m + 1)).map (fun k => (a + 1 + k, tot)) =
      (a + 1, tot) :: (List.range m).map (fun k => (a + 2 + k, tot)) := by
  have hf : ((fun k => (a + 1 + k, tot)) ∘ Nat.succ) = fun k => (a + 2 + k, tot) := by
    funext k
    have hk : a + 1 + (k + 1) = a + 2 + k := by omega
    simp [Function.comp, hk]
  rw [List.range_succ_eq_map, List.map_cons, List.map_map, hf]

theorem schedF_events (outcome : String → Bool) (ignore : List String) (total : Nat) :
    ∀ fuel remaining inflight processed picks,
      2 * remaining.length + inflight.length < fuel →
      (schedF outcome ignore total fuel remaining inflight processed picks).events =
        (List.range ((remaining.filter fun t => decide (t ∉ ignore)).length +
          inflight.length)).map (fun k => (processed + 1 + k, total)) := by
  intro fuel
  induction fuel with
  | zero =>
    intro r i p pk h
    exact absurd h (Nat.not_lt_zero _)
  | succ fuel ih =>
    intro remaining inflight processed picks h
    cases remaining with
    | nil =>
      cases inflight with
      | nil => simp [schedF]
      | cons t infl =>
        simp only [schedF]
        have hlen := popAt_cons_length t infl (headPick picks)
        have hfuel : 2 * ([] : List String).length +
            (popAt (t :: infl) (headPick picks)).2.length < fuel := by
          rw [hlen]
          simp only [List.length_nil, List.length_cons] at h ⊢
          omega
        rw [ih [] (popAt (t :: infl) (headPick picks)).2 (processed + 1) picks.tail hfuel,
          hlen]
        simp only [List.filter_nil, List.length_nil, Nat.zero_add, List.length_cons]
        exact (range_map_pair_succ infl.length processed total).symm
    | cons t rest =>
      by_cases hm : t ∈ ignore
      · simp only [schedF, hm, if_true]
        have hfuel : 2 * rest.length + inflight.length < fuel := by
          simp only [List.length_cons] at h
          omega
        rw [ih rest inflight processed picks hfuel]
        simp [List.filter_cons, hm]
      · by_cases hcap : MAX_CONCURRENT ≤ inflight.length
        · cases inflight with
          | nil => simp [MAX_CONCURRENT] at hcap
          | cons i0 infl =>
            simp only [schedF, hm, if_false, hcap, if_true]
            have hlen := popAt_cons_length i0 infl (headPick picks)
            have hfuel : 2 * (t :: rest).length +
                (popAt (i0 :: infl) (headPick picks)).2.length < fuel := by
              rw [hlen]
              simp only [List.length_cons] at h ⊢
              omega
            rw [ih (t :: rest) (popAt (i0 :: infl) (headPick picks)).2 (processed + 1)
              picks.tail hfuel, hlen]
            have harr : ((t :: rest).filter fun x => decide (x ∉ ignore)).length +
                (i0 :: infl).length =
                ((((t :: rest).filter fun x => decide (x ∉ ignore)).length +
                  infl.length)) + 1 := by
              simp only [List.length_cons]
              omega
            rw [harr]
            exact (range_map_pair_succ _ processed total).symm
        · simp only [schedF, hm, if_false, hcap, if_false]
          have hfuel : 2 * rest.length + (inflight ++ [t]).length < fuel := by
            simp only [List.length_cons, List.length_append, List.length_nil] at h ⊢
            omega
          rw [ih rest (inflight ++ [t]) processed picks hfuel]
          have harr : (rest.filter fun x => decide (x ∉ ignore)).length +
              (inflight ++ [t]).length =
              ((t :: rest).filter fun x => decide (x ∉ ignore)).length +
                inflight.length := by
            simp [List.filter_cons, hm]
            omega
          rw [harr]

theorem schedF_sizes (outcome : String → Bool) (ignore : List String) (total : Nat) :
    ∀ fuel remaining inflight processed picks,
      inflight.length ≤ MAX_CONCURRENT →
      ∀ s ∈ (schedF outcome ignore total fuel remaining inflight processed picks).sizes,
        s ≤ MAX_CONCURRENT := by
  intro fuel
  induction fuel with
  | zero => intro r i p pk hinf s hs; simp [schedF] at hs
  | succ fuel ih =>
    intro remaining inflight processed picks hinf s hs
    cases remaining with
    | nil =>
      cases inflight with
      | nil =>
        simp [schedF] at hs
        omega
      | cons t infl =>
        simp only [schedF] at hs
        rcases List.mem_cons.mp hs with hs | hs
        · subst hs; exact hinf
        · refine ih [] _ (processed + 1) picks.tail ?_ s hs
          rw [popAt_cons_length]
          simp only [List.length_cons] at hinf
          omega
    | cons t rest =>
      by_cases hm : t ∈ ignore
      · simp only [schedF, hm, if_true] at hs
        rcases List.mem_cons.mp hs with hs | hs
        · subst hs; exact hinf
        · exact ih rest inflight processed picks hinf s hs
      · by_cases hcap : MAX_CONCURRENT ≤ inflight.length
        · cases inflight with
          | nil => simp [MAX_CONCURRENT] at hcap
          | cons i0 infl =>
            simp only [schedF, hm, if_false, hcap, if_true] at hs
            rcases List.mem_cons.mp hs with hs | hs
            · subst hs; exact hinf
            · refine ih (t :: rest) _ (processed + 1) picks.tail ?_ s hs
              rw [popAt_cons_length]
              simp only [List.length_cons] at hinf
              omega
        · simp only [schedF, hm, if_false, hcap, if_false] at hs
          rcases List.mem_cons.mp hs with hs | hs
          · subst hs; exact hinf
          · refine ih rest (inflight ++ [t]) processed picks ?_ s hs
            simp only [List.length_append, List.length_cons, List.length_nil]
            omega

theorem schedF_admitted (outcome : String → Bool) (ignore : List String) (total : Nat) :
    ∀ fuel remaining inflight processed picks,
      2 * remaining.length + inflight.length < fuel →
      (schedF outcome ignore total fuel remaining inflight processed picks).admitted =
        remaining.filter fun t => decide (t ∉ ignore) := by
  intro fuel
  induction fuel with
  | zero => intro r i p pk h; exact absurd h (Nat.not_lt_zero _)
  | succ fuel ih =>
    intro remaining inflight processed picks h
    cases remaining with
    | nil =>
      cases inflight with
      | nil => simp [schedF]
      | cons t infl =>
        simp only [schedF, List.filter_nil]
        rw [ih [] (popAt (t :: infl) (headPick picks)).2 (processed + 1) picks.tail
          (by rw [popAt_cons_length]; simp only [List.length_nil, List.length_cons] at h ⊢; omega)]
        simp
    | cons t rest =>
      by_cases hm : t ∈ ignore
      · simp only [schedF, hm, if_true]
        rw [ih rest inflight processed picks
          (by simp only [List.length_cons] at h; omega)]
        simp [List.filter_cons, hm]
      · by_cases hcap : MAX_CONCURRENT ≤ inflight.length
        · cases inflight with
          | nil => simp [MAX_CONCURRENT] at hcap
          | cons i0 infl =>
            simp only [schedF, hm, if_false, hcap, if_true]
            rw [ih (t :: rest) (popAt (i0 :: infl) (headPick picks)).2 (processed + 1)
              picks.tail
              (by rw [popAt_cons_length]; simp only [List.length_cons] at h ⊢; omega)]
        · simp only [schedF, hm, if_false, hcap, if_false]
          rw [ih rest (inflight ++ [t]) processed picks
            (by simp [List.length_append] at h ⊢; omega)]
          simp [List.filter_cons, hm]

theorem schedF_joined (outcome : String → Bool) (ignore : List String) (total : Nat) :
    ∀ fuel remaining inflight processed picks,
      2 * remaining.length + inflight.length < fuel →
      List.Perm (schedF outcome ignore total fuel remaining inflight processed picks).joined
        ((remaining.filter fun t => decide (t ∉ ignore)) ++ inflight) := by
  intro fuel
  induction fuel with
  | zero => intro r i p pk h; exact absurd h (Nat.not_lt_zero _)
  | succ fuel ih =>
    intro remaining inflight processed picks h
    cases remaining with
    | nil =>
      cases inflight with
      | nil => simp [schedF]
      | cons t infl =>
        simp only [schedF, List.filter_nil, List.nil_append]
        have hrec := ih [] (popAt (t :: infl) (headPick picks)).2 (processed + 1) picks.tail
          (by rw [popAt_cons_length]; simp only [List.length_nil, List.length_cons] at h ⊢; omega)
        simp only [List.filter_nil, List.nil_append] at hrec
        exact (hrec.cons _).trans (popAt_cons_perm t infl (headPick picks))
    | cons t rest =>
      by_cases hm : t ∈ ignore
      · simp only [schedF, hm, if_true]
        have hrec := ih rest inflight processed picks
          (by simp only [List.length_cons] at h; omega)
        have hfil : ((t :: rest).filter fun x => decide (x ∉ ignore)) =
            rest.filter fun x => decide (x ∉ ignore) := by
          simp [List.filter_cons, hm]
        rw [hfil]
        exact hrec
      · by_cases hcap : MAX_CONCURRENT ≤ inflight.length
        · cases inflight with
          | nil => simp [MAX_CONCURRENT] at hcap
          | cons i0 infl =>
            simp only [schedF, hm, if_false, hcap, if_true]
            have hrec := ih (t :: rest) (popAt (i0 :: infl) (headPick picks)).2
              (processed + 1) picks.tail
              (by rw [popAt_cons_length]; simp only [List.length_cons] at h ⊢; omega)
            refine ((hrec.cons _).trans ?_)
            refine (List.perm_middle).symm.trans ?_
            exact List.Perm.append_left _ (popAt_cons_perm i0 infl (headPick picks))
        · simp only [schedF, hm, if_false, hcap, if_false]
          have hrec := ih rest (inflight ++ [t]) processed picks
            (by simp [List.length_append] at h ⊢; omega)
          refine hrec.trans ?_
          have hfil : ((t :: rest).filter fun x => decide (x ∉ ignore)) =
              t :: rest.filter fun x => decide (x ∉ ignore) := by
            simp [List.filter_cons, hm]
          rw [hfil]
          rw [← List.append_assoc]
          exact List.perm_append_singleton _ _

theorem schedF_failures (outcome : String → Bool) (ignore : List String) (total : Nat) :
    ∀ fuel remaining inflight processed picks,
      (schedF outcome ignore total fuel remaining inflight processed picks).failures =
        (schedF outcome ignore total fuel remaining inflight processed
          picks).joined.filter fun t => !outcome t := by
  intro fuel
  induction fuel with
  | zero => intro r i p pk; simp [schedF]
  | succ fuel ih =>
    intro remaining inflight processed picks
    cases remaining with
    | nil =>
      cases inflight with
      | nil => simp [schedF]
      | cons t infl =>
        simp only [schedF]
        rw [ih [] (popAt (t :: infl) (headPick picks)).2 (processed + 1) picks.tail]
        simp only [List.filter_cons]
        split <;> rename_i ho <;> simp [ho]
    | cons t rest =>
      by_cases hm : t ∈ ignore
      · simp only [schedF, hm, if_true]
        exact ih rest inflight processed picks
      · by_cases hcap : MAX_CONCURRENT ≤ inflight.length
        · cases inflight with
          | nil => simp [MAX_CONCURRENT] at hcap
          | cons i0 infl =>
            simp only [schedF, hm, if_false, hcap, if_true]
            rw [ih (t :: rest) (popAt (i0 :: infl) (headPick picks)).2 (processed + 1)
              picks.tail]
            simp only [List.filter_cons]
            split <;> rename_i ho <;> simp [ho]
        · simp only [schedF, hm, if_false, hcap, if_false]
          exact ih rest (inflight ++ [t]) processed picks

/-- C5: for every run, the processed counter increases by exactly 1 per
completed worker outcome — the emitted progress events are exactly
`(1, total), (2, total), ..., (total, total)` whatever the per-table
outcomes (success or failure alike) and whatever completion order the
oracle picks — and `processed` never exceeds `total`, the count of
non-ignored tables fixed at scheduling start. -/
theorem C5_processed_steps_by_one (tables ignore : List String) (outcome : String → Bool)
    (picks : List Nat) :
    (schedRun tables ignore outcome picks).events =
      (List.range (countNonIgnored tables ignore)).map
        (fun k => (k + 1, countNonIgnored tables ignore)) ∧
    (schedRun tables ignore outcome picks).events.all
      (fun e => decide (e.1 ≤ e.2)) = true := by
  have hev := schedF_events outcome ignore (countNonIgnored tables ignore)
    (2 * tables.length + 1) tables [] 0 picks
    (by simp only [List.length_nil]; omega)
  have heq : (schedRun tables ignore outcome picks).events =
      (List.range (countNonIgnored tables ignore)).map
        (fun k => (k + 1, countNonIgnored tables ignore)) := by
    unfold schedRun
    rw [hev]
    unfold countNonIgnored
    simp only [List.length_nil, Nat.add_zero]
    congr 1
    funext k
    have hk : 0 + 1 + k = k + 1 := by omega
    rw [hk]
  refine ⟨heq, ?_⟩
  rw [heq, List.all_eq_true]
  intro e he
  simp only [List.mem_map, List.mem_range] at he
  obtain ⟨k, hk, rfl⟩ := he
  simp only [decide_eq_true_eq]
  omega

/-- C6: the concurrency ceiling `MAX_CONCURRENT` is 15, and at no instant
during a run does the number of in-flight workers exceed it: every
in-flight count observed at any step of the scheduling loop (recorded in
`sizes`) is at most 15 — once 15 workers are in flight the loop drains a
completion before admitting another table. -/
theorem C6_concurrency_bounded (tables ignore : List String) (outcome : String → Bool)
    (picks : List Nat) :
    MAX_CONCURRENT = 15 ∧
    (schedRun tables ignore outcome picks).sizes.all
      (fun s => decide (s ≤ MAX_CONCURRENT)) = true := by
  refine ⟨rfl, ?_⟩
  rw [List.all_eq_true]
  intro s hs
  have hb := schedF_sizes outcome ignore (countNonIgnored tables ignore)
    (2 * tables.length + 1) tables [] 0 picks
    (by simp [MAX_CONCURRENT]) s hs
  simpa using hb

/-- C3: when `total` is 0 (all tables ignored or the source is empty), no
progress event is emitted and the run loop short-circuits: no worker is
admitted or drained, so `upgrade_progress` — the only place dividing by
`total` — is never reached. -/
theorem C3_total_zero_no_progress (tables ignore : List String) (outcome : String → Bool)
    (picks : List Nat) (h : countNonIgnored tables ignore = 0) :
    (schedRun tables ignore outcome picks).events = [] ∧
    (schedRun tables ignore outcome picks).admitted = [] ∧
    (schedRun tables ignore outcome picks).joined = [] := by
  have hfil : (tables.filter fun t => decide (t ∉ ignore)) = [] := by
    unfold countNonIgnored at h
    exact List.eq_nil_of_length_eq_zero h
  have hev := schedF_events outcome ignore (countNonIgnored tables ignore)
    (2 * tables.length + 1) tables [] 0 picks
    (by simp only [List.length_nil]; omega)
  have hadm := schedF_admitted outcome ignore (countNonIgnored tables ignore)
    (2 * tables.length + 1) tables [] 0 picks
    (by simp only [List.length_nil]; omega)
  have hj := schedF_joined outcome ignore (countNonIgnored tables ignore)
    (2 * tables.length + 1) tables [] 0 picks
    (by simp only [List.length_nil]; omega)
  refine ⟨?_, ?_, ?_⟩
  · unfold schedRun
    rw [hev, hfil]
    simp
  · unfold schedRun
    rw [hadm, hfil]
  · unfold schedRun
    have hj2 := hj
    rw [hfil] at hj2
    simp only [List.nil_append] at hj2
    exact hj2.eq_nil

/-- C8: all per-table errors are recovered at the worker boundary: whatever
the per-table outcomes (`outcome t = false` = the worker's `Result` was an
error, as `clone_table` returns for schema-read/write, row-read/write and
per-worker connection errors), every non-ignored table is still joined
exactly once (the run continues past failures and siblings are
unaffected), every completed outcome — failure included — is counted in
progress, and the failing tables are exactly the ones logged. -/
theorem C8_per_table_errors_isolated (tables ignore : List String) (outcome : String → Bool)
    (picks : List Nat) :
    List.Perm (schedRun tables ignore outcome picks).joined
      (tables.filter fun t => decide (t ∉ ignore)) ∧
    (schedRun tables ignore outcome picks).events.length =
      countNonIgnored tables ignore ∧
    (schedRun tables ignore outcome picks).failures =
      (schedRun tables ignore outcome picks).joined.filter fun t => !outcome t := by
  have hev := schedF_events outcome ignore (countNonIgnored tables ignore)
    (2 * tables.length + 1) tables [] 0 picks
    (by simp only [List.length_nil]; omega)
  have hj := schedF_joined outcome ignore (countNonIgnored tables ignore)
    (2 * tables.length + 1) tables [] 0 picks
    (by simp only [List.length_nil]; omega)
  refine ⟨?_, ?_, ?_⟩
  · unfold schedRun
    simpa using hj
  · unfold schedRun
    rw [hev]
    simp [countNonIgnored]
  · exact schedF_failures outcome ignore (countNonIgnored tables ignore)
      (2 * tables.length + 1) tables [] 0 picks

/-- C10: a table in the ignore set is never admitted as a worker and
contributes 0 to `total`; the ignore set is parsed from the comma-delimited
configuration string by trimming whitespace around entries, discarding
empty entries and using exact string membership; and an absent
`IGNORE_TABLES` yields the empty ignore set, while an absent connection
locator component is a fatal configuration error (`get_env` fails). -/
theorem C10_ignore_set (tables l1 l2 ignore : List String) (outcome : String → Bool)
    (picks : List Nat) (t : String) (hmem : t ∈ ignore) :
    t ∉ (schedRun tables ignore outcome picks).admitted ∧
    countNonIgnored (l1 ++ t :: l2) ignore = countNonIgnored (l1 ++ l2) ignore ∧
    ignore_tables none = [] ∧
    ignore_tables (some " users , , logs ") = ["users", "logs"] ∧
    (get_env none "SOURCE_DB_HOST").isOk = false := by
  refine ⟨?_, ?_, by decide, by decide, by decide⟩
  · have hadm := schedF_admitted outcome ignore (countNonIgnored tables ignore)
      (2 * tables.length + 1) tables [] 0 picks
      (by simp only [List.length_nil]; omega)
    unfold schedRun
    rw [hadm]
    intro hcon
    rw [List.mem_filter] at hcon
    have h2 := hcon.2
    simp only [decide_eq_true_eq] at h2
    exact h2 hmem
  · unfold countNonIgnored
    simp [List.filter_append, List.filter_cons, hmem]

/-- Witness for C3: all tables ignored, hence total 0 and no progress. -/
theorem C3_total_zero_no_progress_witness :
    countNonIgnored ["users"] ["users"] = 0 ∧
    (schedRun ["users"] ["users"] (fun _ => true) []).events = [] :=
  ⟨by decide, (C3_total_zero_no_progress ["users"] ["users"] (fun _ => true) []
    (by decide)).1⟩

/-- Witness for C10: table "b" is in the ignore set and is never admitted. -/
theorem C10_ignore_set_witness :
    ("b" ∈ ["b"]) ∧
    "b" ∉ (schedRun ["a", "b"] ["b"] (fun _ => true) []).admitted :=
  ⟨by decide, (C10_ignore_set ["a", "b"] [] [] ["b"] (fun _ => true) [] "b"
    (by decide)).1⟩
